import Mathlib

/-!
Verification of the Onlearn backend's Progress & Certification Consistency
Engine (usecase layer) against its natural-language specification.

The Go source is shallowly embedded: each repository-backed store becomes a
list field of an explicit state record, and each usecase method becomes a
pure function from state to state paired with a `GoOutcome`.  Repository
reads translate the actual repository code in `internal/repository/mongo.go`:
`GetByUserAndCourse`, `GetByUserAndModule` and `GetGrade` return `none` when
the row is absent (the Go code maps `gorm.ErrRecordNotFound` to `(nil, nil)`),
while `userRepo.GetByID` and `certRepo.GetByID` return an explicit error on
absence.  `gorm` `Save` on a record fetched by a key is modelled as replacing
the records with that key.  Go float64 percentages are modelled as rationals.
Store writes are modelled as succeeding; the two failure points the
specification discusses (the enrollment read inside the aggregation, and
`certRepo.Create` inside the certificate triggers) are injectable through a
`Faults` record.  A nil-pointer dereference in the Go code is modelled as the
`GoOutcome.panicked` outcome.
-/

namespace Onlearn

/-- Outcome of a Go usecase call: a nil error, a non-nil error, or a runtime
panic (nil-pointer dereference). -/
inductive GoOutcome where
  | ok : GoOutcome
  | err : String → GoOutcome
  | panicked : GoOutcome
deriving DecidableEq, Repr

/-- Role of a user, from `domain.Role` (`student`, `instructor`, `admin`). -/
inductive Role where
  | student : Role
  | instructor : Role
  | admin : Role
deriving DecidableEq, Repr

/-- User record, reduced to the fields the verified usecases read. -/
structure User where
  id : Nat
  role : Role
deriving DecidableEq, Repr

/-- Enrollment row from `domain.Enrollment`: `Progress float64`,
`IsFinished bool`, keyed by `(UserID, CourseID)`. -/
structure Enrollment where
  userID : Nat
  courseID : Nat
  progress : ℚ
  isFinished : Bool
deriving DecidableEq, Repr

/-- ModuleProgress row from `domain.ModuleProgress`, keyed by
`(UserID, ModuleID)` in every usecase read. -/
structure ModuleProgress where
  userID : Nat
  moduleID : String
  courseID : Nat
  isComplete : Bool
deriving DecidableEq, Repr

/-- Certificate row from `domain.Certificate` (timestamps omitted;
`ApprovedAt` is set exactly when `ApprovedBy` is set). -/
structure Certificate where
  id : Nat
  userID : Nat
  courseID : Option Nat
  labID : Option Nat
  title : String
  url : String
  status : String
  approvedBy : Option Nat
deriving DecidableEq, Repr

/-- State visible to the course usecase (`internal/usecase/auth.go`,
`courseUsecase`): course ids, the module store (module id with its course
id), enrollments, module-progress rows and certificates. -/
structure CourseState where
  courses : List Nat
  modules : List (String × Nat)
  enrollments : List Enrollment
  progresses : List ModuleProgress
  certificates : List Certificate
deriving DecidableEq, Repr

/-- Injectable repository failures: a database error from the enrollment
read inside the aggregation, and a failing `certRepo.Create`. -/
structure Faults where
  enrollGetFails : Bool
  certCreateFails : Bool
deriving DecidableEq, Repr

/-- Run with no injected repository failure. -/
def noFaults : Faults := ⟨false, false⟩

/-- Repository read `enrollmentRepo.GetByUserAndCourse`: first row with the
given user and course ids, `none` when absent. -/
def getByUserAndCourse (l : List Enrollment) (userID courseID : Nat) :
    Option Enrollment :=
  l.find? (fun e => e.userID == userID && e.courseID == courseID)

/-- Repository read `progressRepo.GetByUserAndModule`: first row with the
given user and module ids, `none` when absent. -/
def getByUserAndModule (l : List ModuleProgress) (userID : Nat)
    (moduleID : String) : Option ModuleProgress :=
  l.find? (fun p => p.userID == userID && p.moduleID == moduleID)

/-- Repository read `progressRepo.CountCompletedByUserAndCourse`: number of
rows with the given user and course ids and `is_complete = true`. -/
def countCompletedByUserAndCourse (l : List ModuleProgress)
    (userID courseID : Nat) : Nat :=
  (l.filter (fun p =>
    p.userID == userID && p.courseID == courseID && p.isComplete)).length

/-- Repository read `moduleRepo.GetByCourseID`: the modules whose course id
matches. -/
def modulesByCourse (mods : List (String × Nat)) (courseID : Nat) :
    List (String × Nat) :=
  mods.filter (fun m => m.2 == courseID)

/-- Write `enrollmentRepo.Update` (gorm `Save`) of an enrollment fetched by
`(userID, courseID)`: rows with that key are replaced. -/
def saveEnrollment (l : List Enrollment) (e : Enrollment) : List Enrollment :=
  l.map (fun x =>
    if x.userID == e.userID && x.courseID == e.courseID then e else x)

/-- Write `progressRepo.Update` (gorm `Save`) of a module-progress row
fetched by `(userID, moduleID)`: rows with that key are replaced. -/
def saveModuleProgress (l : List ModuleProgress) (p : ModuleProgress) :
    List ModuleProgress :=
  l.map (fun x =>
    if x.userID == p.userID && x.moduleID == p.moduleID then p else x)

/-- Database-assigned id for the next created certificate. -/
def freshCertID (certs : List Certificate) : Nat := certs.length + 1

/-- Certificate value built by the course-completion trigger in
`updateEnrollmentProgress`. -/
def courseCert (certs : List Certificate) (userID courseID : Nat) :
    Certificate :=
  { id := freshCertID certs
    userID := userID
    courseID := some courseID
    labID := none
    title := "Course Completion Certificate"
    url := "/certificates/auto-generated.pdf"
    status := "pending"
    approvedBy := none }

/-- Progress percentage computed by the aggregation:
`(float64(completed) / float64(total)) * 100`. -/
def progressPct (completed total : Nat) : ℚ :=
  ((completed : ℚ) / (total : ℚ)) * 100

/-- Aggregation `courseUsecase.updateEnrollmentProgress` (auth.go:326-360).
The enrollment is fetched (absence yields `none`, not an error); with zero
modules the call returns nil early; otherwise the completed count is read,
the percentage computed and assigned through the enrollment pointer — a nil
pointer when the student has no enrollment, hence `panicked`; at 100% the
enrollment is marked finished and a pending course certificate is created
with its `Create` error ignored; finally the enrollment is saved. -/
def updateEnrollmentProgress (f : Faults) (s : CourseState)
    (userID courseID : Nat) : CourseState × GoOutcome :=
  if f.enrollGetFails then (s, .err "database error") else
  let enrollment? := getByUserAndCourse s.enrollments userID courseID
  let totalModules := (modulesByCourse s.modules courseID).length
  if totalModules == 0 then (s, .ok) else
  let completed := countCompletedByUserAndCourse s.progresses userID courseID
  let progress := progressPct completed totalModules
  match enrollment? with
  | none => (s, .panicked)
  | some e =>
    if 100 ≤ progress then
      let certs :=
        if f.certCreateFails then s.certificates
        else s.certificates ++ [courseCert s.certificates userID courseID]
      let saved := saveEnrollment s.enrollments
        { e with progress := progress, isFinished := true }
      ({ s with certificates := certs, enrollments := saved }, .ok)
    else
      let saved := saveEnrollment s.enrollments { e with progress := progress }
      ({ s with enrollments := saved }, .ok)

/-- Usecase `courseUsecase.MarkModuleComplete` (auth.go:298-324): an already
complete row returns nil with no side effect; an incomplete row is saved
complete; an absent row is created complete; then the aggregation runs. -/
def MarkModuleComplete (f : Faults) (s : CourseState) (userID : Nat)
    (moduleID : String) (courseID : Nat) : CourseState × GoOutcome :=
  match getByUserAndModule s.progresses userID moduleID with
  | some existing =>
    if existing.isComplete then (s, .ok)
    else
      let written := saveModuleProgress s.progresses
        { existing with isComplete := true }
      updateEnrollmentProgress f { s with progresses := written }
        userID courseID
  | none =>
    let created : ModuleProgress :=
      { userID := userID, moduleID := moduleID, courseID := courseID,
        isComplete := true }
    updateEnrollmentProgress f
      { s with progresses := s.progresses ++ [created] } userID courseID

/-- Usecase `courseUsecase.EnrollStudent` (auth.go:239-259): errors when an
enrollment exists or the course does not; otherwise creates an enrollment
with progress 0 and the zero-value finished flag. -/
def EnrollStudent (s : CourseState) (userID courseID : Nat) :
    CourseState × GoOutcome :=
  match getByUserAndCourse s.enrollments userID courseID with
  | some _ => (s, .err "already enrolled in this course")
  | none =>
    if s.courses.contains courseID then
      let created : Enrollment :=
        { userID := userID, courseID := courseID, progress := 0,
          isFinished := false }
      ({ s with enrollments := s.enrollments ++ [created] }, .ok)
    else (s, .err "course not found")

/-- Usecase `courseUsecase.AddModule` (auth.go:213-221): verifies the course
exists, then creates the module. -/
def AddModule (s : CourseState) (moduleID : String) (courseID : Nat) :
    CourseState × GoOutcome :=
  if s.courses.contains courseID then
    ({ s with modules := s.modules ++ [(moduleID, courseID)] }, .ok)
  else (s, .err "course not found")

/-- Usecase `courseUsecase.DeleteModule` (auth.go:231-235): deletes the
module row. -/
def DeleteModule (s : CourseState) (moduleID : String) :
    CourseState × GoOutcome :=
  ({ s with modules := s.modules.filter (fun m => !(m.1 == moduleID)) }, .ok)

/-- Repository read `userRepo.GetByID`: this one returns an explicit error
on absence, so the model uses `Option` with `none` standing for that
error. -/
def getUserByID (l : List User) (id : Nat) : Option User :=
  l.find? (fun u => u.id == id)

/-- Role test shared by the graders and approvers: the negation of the Go
guard `role != RoleInstructor && role != RoleAdmin`. -/
def canReview (r : Role) : Bool :=
  r == Role.instructor || r == Role.admin

/-- Certificate value built by the lab-pass trigger in both revisions of
`SubmitGrade`. -/
def labCert (certs : List Certificate) (userID labID : Nat) : Certificate :=
  { id := freshCertID certs
    userID := userID
    courseID := none
    labID := some labID
    title := "Lab Completion Certificate"
    url := "/certificates/lab-auto-generated.pdf"
    status := "pending"
    approvedBy := none }

/-- Pass test of the letter-scale lab trigger: `grade == "A" || grade == "B"`
(lab.go:157). -/
def passLetter (grade : String) : Bool :=
  grade == "A" || grade == "B"

/-- Pass test of the numeric-scale lab trigger:
`grade != nil && *grade >= 75` (part_001:220). -/
def passNumeric (grade : Option ℚ) : Bool :=
  match grade with
  | none => false
  | some g => decide (75 ≤ g)

namespace LetterRev

/-- LabGrade row of the letter-scale revision
(`internal/usecase/lab.go`): `Grade string`, empty meaning ungraded. -/
structure LabGrade where
  userID : Nat
  labID : Nat
  grade : String
  feedback : String
deriving DecidableEq, Repr

/-- State visible to the letter-scale lab usecase. -/
structure LabState where
  users : List User
  labs : List Nat
  grades : List LabGrade
  certificates : List Certificate
deriving DecidableEq, Repr

/-- Repository read `labRepo.GetGrade`: first row with the given user and
lab ids, `none` when absent. -/
def getGrade (l : List LabGrade) (userID labID : Nat) : Option LabGrade :=
  l.find? (fun g => g.userID == userID && g.labID == labID)

/-- Write `labRepo.UpdateGrade` (gorm `Save`) of a row fetched by
`(userID, labID)`: rows with that key are replaced. -/
def saveGrade (l : List LabGrade) (g : LabGrade) : List LabGrade :=
  l.map (fun x => if x.userID == g.userID && x.labID == g.labID then g else x)

/-- Usecase `labUsecase.SubmitGrade`, letter-scale revision
(lab.go:125-168): the instructor must resolve to an instructor or admin;
an absent grade record is an error; the grade and feedback are saved; a
grade of A or B triggers a pending lab certificate whose `Create` error is
ignored. -/
def SubmitGrade (f : Faults) (s : LabState)
    (instructorID userID labID : Nat) (grade feedback : String) :
    LabState × GoOutcome :=
  match getUserByID s.users instructorID with
  | none => (s, .err "instructor not found")
  | some instructor =>
    if !canReview instructor.role then
      (s, .err "only instructors and admins can grade labs")
    else
      match getGrade s.grades userID labID with
      | none => (s, .err "student not enrolled in this lab")
      | some labGrade =>
        let written := saveGrade s.grades
          { labGrade with grade := grade, feedback := feedback }
        let certs :=
          if passLetter grade then
            if f.certCreateFails then s.certificates
            else s.certificates ++ [labCert s.certificates userID labID]
          else s.certificates
        ({ s with grades := written, certificates := certs }, .ok)

end LetterRev

namespace NumericRev

/-- LabGrade row of the numeric-scale revision (`src/unnamed/part_001`):
`Grade *float64`, nil meaning ungraded. -/
structure LabGrade where
  userID : Nat
  labID : Nat
  grade : Option ℚ
  feedback : String
deriving DecidableEq, Repr

/-- State visible to the numeric-scale lab usecase. -/
structure LabState where
  users : List User
  labs : List Nat
  grades : List LabGrade
  certificates : List Certificate
deriving DecidableEq, Repr

/-- Repository read `labRepo.GetGrade` of this revision. -/
def getGrade (l : List LabGrade) (userID labID : Nat) : Option LabGrade :=
  l.find? (fun g => g.userID == userID && g.labID == labID)

/-- Write `labRepo.UpdateGrade` (gorm `Save`): rows keyed by
`(userID, labID)` are replaced; a record with no row yet (the revision's
auto-created grade, primary key zero) is inserted, matching `Save`'s
create-on-zero-key behavior together with the fallback `CreateGrade`. -/
def upsertGrade (l : List LabGrade) (g : LabGrade) : List LabGrade :=
  if l.any (fun x => x.userID == g.userID && x.labID == g.labID) then
    l.map (fun x => if x.userID == g.userID && x.labID == g.labID then g else x)
  else l ++ [g]

/-- Usecase `labUsecase.SubmitGrade`, numeric-scale revision
(part_001:181-231): the instructor must resolve to an instructor or admin;
an absent grade record is auto-created instead of rejected; the grade and
feedback are saved; a non-nil grade of at least 75 triggers a pending lab
certificate whose `Create` error is ignored. -/
def SubmitGrade (f : Faults) (s : LabState)
    (instructorID userID labID : Nat) (grade : Option ℚ) (feedback : String) :
    LabState × GoOutcome :=
  match getUserByID s.users instructorID with
  | none => (s, .err "instructor not found")
  | some instructor =>
    if !canReview instructor.role then
      (s, .err "only instructors and admins can grade labs")
    else
      let labGrade : LabGrade :=
        match getGrade s.grades userID labID with
        | none => { userID := userID, labID := labID, grade := none,
                    feedback := "" }
        | some g => g
      let written := upsertGrade s.grades
        { labGrade with grade := grade, feedback := feedback }
      let certs :=
        if passNumeric grade then
          if f.certCreateFails then s.certificates
          else s.certificates ++ [labCert s.certificates userID labID]
        else s.certificates
      ({ s with grades := written, certificates := certs }, .ok)

end NumericRev

/-- State visible to the certificate usecase (`src/unnamed/part_000`). -/
structure CertState where
  users : List User
  certificates : List Certificate
deriving DecidableEq, Repr

/-- Repository read `certRepo.GetByID`: explicit error on absence, modelled
as `none`. -/
def getCertByID (l : List Certificate) (id : Nat) : Option Certificate :=
  l.find? (fun c => c.id == id)

/-- Write `certRepo.Update` (gorm `Save`) of a certificate fetched by id:
rows with that id are replaced. -/
def saveCert (l : List Certificate) (c : Certificate) : List Certificate :=
  l.map (fun x => if x.id == c.id then c else x)

/-- Usecase `certificateUsecase.ApproveCertificate` (part_000:87-109): the
certificate must exist and the approver resolve to an instructor or admin;
the status is then set to approved unconditionally, with `ApprovedBy` and
`ApprovedAt` stamped. -/
def ApproveCertificate (s : CertState) (certID approverID : Nat) :
    CertState × GoOutcome :=
  match getCertByID s.certificates certID with
  | none => (s, .err "certificate not found")
  | some cert =>
    match getUserByID s.users approverID with
    | none => (s, .err "approver not found")
    | some approver =>
      if !canReview approver.role then
        (s, .err "only instructors and admins can approve certificates")
      else
        let written := saveCert s.certificates
          { cert with status := "approved", approvedBy := some approverID }
        ({ s with certificates := written }, .ok)

/-- Usecase `certificateUsecase.RejectCertificate` (part_000:111-133):
identical to approval except the status written is rejected. -/
def RejectCertificate (s : CertState) (certID approverID : Nat) :
    CertState × GoOutcome :=
  match getCertByID s.certificates certID with
  | none => (s, .err "certificate not found")
  | some cert =>
    match getUserByID s.users approverID with
    | none => (s, .err "approver not found")
    | some approver =>
      if !canReview approver.role then
        (s, .err "only instructors and admins can reject certificates")
      else
        let written := saveCert s.certificates
          { cert with status := "rejected", approvedBy := some approverID }
        ({ s with certificates := written }, .ok)

/-!
Specification-level definitions: invariants, reachability by the course
usecase operations, operation sequences, and concrete states used as
counterexample inputs.
-/

/-- Invariant I2 of the specification: an enrollment is finished exactly
when its stored progress is at least 100. -/
def I2 (s : CourseState) : Prop :=
  ∀ e ∈ s.enrollments, e.isFinished = true ↔ 100 ≤ e.progress

/-- Auxiliary invariant: a finished enrollment has at least as many complete
module-progress rows for its key as its course has modules. -/
def FinishedDone (s : CourseState) : Prop :=
  ∀ e ∈ s.enrollments, e.isFinished = true →
    (modulesByCourse s.modules e.courseID).length ≤
      countCompletedByUserAndCourse s.progresses e.userID e.courseID

/-- Auxiliary invariant: module-progress rows are functional in their
`(userID, moduleID)` key. -/
def ProgKeyFun (s : CourseState) : Prop :=
  ∀ p ∈ s.progresses, ∀ q ∈ s.progresses,
    p.userID = q.userID → p.moduleID = q.moduleID → p = q

/-- Inductive invariant for the course usecase. -/
def CourseInv (s : CourseState) : Prop :=
  ProgKeyFun s ∧ FinishedDone s ∧ I2 s

/-- Initial state: an arbitrary catalog of courses and modules, with no
enrollments, no module-progress rows and no certificates yet. -/
def initState (courses : List Nat) (modules : List (String × Nat)) :
    CourseState :=
  { courses := courses, modules := modules, enrollments := [],
    progresses := [], certificates := [] }

/-- States reachable by the course-usecase operations named in the claim:
`EnrollStudent` and `MarkModuleComplete` (with its aggregation), under any
injected repository faults. -/
inductive ReachableC : CourseState → Prop where
  | init : ∀ courses modules, ReachableC (initState courses modules)
  | enroll : ∀ {s : CourseState} (userID courseID : Nat), ReachableC s →
      ReachableC (EnrollStudent s userID courseID).1
  | mark : ∀ {s : CourseState} (f : Faults) (userID : Nat) (moduleID : String)
      (courseID : Nat), ReachableC s →
      ReachableC (MarkModuleComplete f s userID moduleID courseID).1

/-- Operations of the course usecase that touch the shared state, used to
express temporal monotonicity over arbitrary call sequences. -/
inductive Op where
  | enroll (userID courseID : Nat) : Op
  | mark (f : Faults) (userID : Nat) (moduleID : String) (courseID : Nat) : Op
  | addModule (moduleID : String) (courseID : Nat) : Op
  | deleteModule (moduleID : String) : Op

/-- State after one operation. -/
def applyOp (s : CourseState) : Op → CourseState
  | .enroll u c => (EnrollStudent s u c).1
  | .mark f u m c => (MarkModuleComplete f s u m c).1
  | .addModule m c => (AddModule s m c).1
  | .deleteModule m => (DeleteModule s m).1

/-- State after a sequence of operations. -/
def runOps (s : CourseState) : List Op → CourseState
  | [] => s
  | op :: rest => runOps (applyOp s op) rest

/-- Finished flag of the (first) enrollment stored for a student and course,
as the repositories would read it; false when absent. -/
def finishedFlag (s : CourseState) (u c : Nat) : Bool :=
  match getByUserAndCourse s.enrollments u c with
  | some e => e.isFinished
  | none => false

/-- State in which student 1 finished course 1 back when module m2 was its
only module, after which module m1 was added: the enrollment is finished and
one of the two modules is not yet complete. -/
def finishedWithNewModule : CourseState :=
  { courses := [1]
    modules := [("m1", 1), ("m2", 1)]
    enrollments := [{ userID := 1, courseID := 1, progress := 100,
                      isFinished := true }]
    progresses := [{ userID := 1, moduleID := "m2", courseID := 1,
                     isComplete := true }]
    certificates := [] }

/-- State in which student 1 completed the single original module m1 of
course 1 (stored progress 100), after which module m2 was added, leaving the
stored progress stale. -/
def staleProgressState : CourseState :=
  { courses := [1]
    modules := [("m1", 1), ("m2", 1)]
    enrollments := [{ userID := 1, courseID := 1, progress := 100,
                      isFinished := true }]
    progresses := [{ userID := 1, moduleID := "m1", courseID := 1,
                     isComplete := true }]
    certificates := [] }

/-- State in which course 1 has a module but student 1 has no enrollment. -/
def noEnrollmentState : CourseState :=
  { courses := [1]
    modules := [("m1", 1)]
    enrollments := []
    progresses := []
    certificates := [] }

/-- Letter-scale lab state with one instructor and one ungraded student. -/
def letterLabState : LetterRev.LabState :=
  { users := [{ id := 9, role := Role.instructor }]
    labs := [5]
    grades := [{ userID := 4, labID := 5, grade := "", feedback := "" }]
    certificates := [] }

/-- Numeric-scale lab state with one instructor and one ungraded student. -/
def numericLabState : NumericRev.LabState :=
  { users := [{ id := 9, role := Role.instructor }]
    labs := [5]
    grades := [{ userID := 4, labID := 5, grade := none, feedback := "" }]
    certificates := [] }

/-- State in which student 1 is enrolled in course 1, which has one module
not yet complete. -/
def oneModuleState : CourseState :=
  { courses := [1]
    modules := [("m1", 1)]
    enrollments := [{ userID := 1, courseID := 1, progress := 0,
                      isFinished := false }]
    progresses := []
    certificates := [] }

/-- State after student 1 completes the single module of course 1 in
`oneModuleState`. -/
def oneModuleDone : CourseState :=
  { courses := [1]
    modules := [("m1", 1)]
    enrollments := [{ userID := 1, courseID := 1, progress := 100,
                      isFinished := true }]
    progresses := [{ userID := 1, moduleID := "m1", courseID := 1,
                     isComplete := true }]
    certificates := [courseCert [] 1 1] }

/-- State holding one rejected certificate and one admin reviewer. -/
def rejectedCertState : CertState :=
  { users := [{ id := 3, role := Role.admin }]
    certificates := [{ id := 1, userID := 2, courseID := some 1,
                       labID := none, title := "Course Completion Certificate",
                       url := "/certificates/auto-generated.pdf",
                       status := "rejected", approvedBy := none }] }

/-!
Helper lemmas about the keyed-save writes and the completed-count read.
-/

/-- Searching a list after mapping a predicate-preserving function commutes
with the search. -/
theorem find?_map_keyed {α : Type} (l : List α) (f : α → α) (p : α → Bool)
    (hpres : ∀ x, p (f x) = p x) :
    (l.map f).find? p = Option.map f (l.find? p) := by
  rw [List.find?_map]
  have hfp : (p ∘ f) = p := funext hpres
  rw [hfp]

/-- Saving an enrollment rewrites exactly the rows with its key, so a lookup
afterwards returns the looked-up row with the replacement applied. -/
theorem getByUserAndCourse_save (l : List Enrollment) (e' : Enrollment)
    (u c : Nat) :
    getByUserAndCourse (saveEnrollment l e') u c =
      Option.map
        (fun x => if x.userID == e'.userID && x.courseID == e'.courseID
          then e' else x)
        (getByUserAndCourse l u c) := by
  unfold getByUserAndCourse saveEnrollment
  apply find?_map_keyed
  intro x
  by_cases h : (x.userID == e'.userID && x.courseID == e'.courseID) = true
  · rw [if_pos h]
    simp only [Bool.and_eq_true, beq_iff_eq] at h
    rw [h.1, h.2]
  · rw [if_neg h]

/-- Saving a module-progress row rewrites exactly the rows with its key. -/
theorem getByUserAndModule_save (l : List ModuleProgress) (p' : ModuleProgress)
    (u : Nat) (m : String) :
    getByUserAndModule (saveModuleProgress l p') u m =
      Option.map
        (fun x => if x.userID == p'.userID && x.moduleID == p'.moduleID
          then p' else x)
        (getByUserAndModule l u m) := by
  unfold getByUserAndModule saveModuleProgress
  apply find?_map_keyed
  intro x
  by_cases h : (x.userID == p'.userID && x.moduleID == p'.moduleID) = true
  · rw [if_pos h]
    simp only [Bool.and_eq_true, beq_iff_eq] at h
    rw [h.1, h.2]
  · rw [if_neg h]

/-- Saving a certificate rewrites exactly the rows with its id. -/
theorem getCertByID_save (l : List Certificate) (c' : Certificate) (i : Nat) :
    getCertByID (saveCert l c') i =
      Option.map (fun x => if x.id == c'.id then c' else x)
        (getCertByID l i) := by
  unfold getCertByID saveCert
  apply find?_map_keyed
  intro x
  by_cases h : (x.id == c'.id) = true
  · rw [if_pos h]
    simp only [beq_iff_eq] at h
    rw [h]
  · rw [if_neg h]

/-- Saving a letter-scale lab grade rewrites exactly the rows with its key. -/
theorem LetterRev.getGrade_save (l : List LetterRev.LabGrade)
    (g' : LetterRev.LabGrade) (u lab : Nat) :
    LetterRev.getGrade (LetterRev.saveGrade l g') u lab =
      Option.map
        (fun x => if x.userID == g'.userID && x.labID == g'.labID
          then g' else x)
        (LetterRev.getGrade l u lab) := by
  unfold LetterRev.getGrade LetterRev.saveGrade
  apply find?_map_keyed
  intro x
  by_cases h : (x.userID == g'.userID && x.labID == g'.labID) = true
  · rw [if_pos h]
    simp only [Bool.and_eq_true, beq_iff_eq] at h
    rw [h.1, h.2]
  · rw [if_neg h]

/-- Completed-count over a cons, split into the head's contribution. -/
theorem countCompleted_cons (x : ModuleProgress) (l : List ModuleProgress)
    (u c : Nat) :
    countCompletedByUserAndCourse (x :: l) u c =
      (if x.userID == u && x.courseID == c && x.isComplete then 1 else 0) +
        countCompletedByUserAndCourse l u c := by
  unfold countCompletedByUserAndCourse
  rw [List.filter_cons]
  by_cases h : (x.userID == u && x.courseID == c && x.isComplete) = true
  · rw [if_pos h, if_pos h, List.length_cons]
    omega
  · rw [if_neg h, if_neg h]
    omega

/-- Appending one row adds at most that row's contribution to the
completed-count. -/
theorem countCompleted_append (l : List ModuleProgress) (p : ModuleProgress)
    (u c : Nat) :
    countCompletedByUserAndCourse (l ++ [p]) u c =
      countCompletedByUserAndCourse l u c +
        (if p.userID == u && p.courseID == c && p.isComplete then 1 else 0) := by
  unfold countCompletedByUserAndCourse
  rw [List.filter_append, List.length_append]
  congr 1
  rw [List.filter_cons]
  by_cases h : (p.userID == u && p.courseID == c && p.isComplete) = true
  · rw [if_pos h, if_pos h]
    rfl
  · rw [if_neg h, if_neg h]
    rfl

/-- Marking a row complete never lowers any completed-count, as long as every
row sharing the saved row's key agrees with it on the course and completeness
only improves. -/
theorem countCompleted_save_mono (l : List ModuleProgress)
    (p' : ModuleProgress)
    (hall : ∀ x ∈ l, x.userID = p'.userID → x.moduleID = p'.moduleID →
      x.courseID = p'.courseID ∧ (x.isComplete = true → p'.isComplete = true))
    (u c : Nat) :
    countCompletedByUserAndCourse l u c ≤
      countCompletedByUserAndCourse (saveModuleProgress l p') u c := by
  induction l with
  | nil => exact Nat.le_refl _
  | cons x xs ih =>
    have hx := hall x (List.mem_cons_self x xs)
    have ih' := ih (fun y hy => hall y (List.mem_cons_of_mem x hy))
    have hsave : saveModuleProgress (x :: xs) p' =
        (if x.userID == p'.userID && x.moduleID == p'.moduleID then p' else x)
          :: saveModuleProgress xs p' := rfl
    rw [hsave, countCompleted_cons, countCompleted_cons]
    apply Nat.add_le_add _ ih'
    by_cases hk : (x.userID == p'.userID && x.moduleID == p'.moduleID) = true
    · rw [if_pos hk]
      simp only [Bool.and_eq_true, beq_iff_eq] at hk
      by_cases hc : (x.userID == u && x.courseID == c && x.isComplete) = true
      · simp only [Bool.and_eq_true, beq_iff_eq] at hc
        obtain ⟨⟨hcu, hcc⟩, hcC⟩ := hc
        have hcourse := (hx hk.1 hk.2).1
        have hcomp := (hx hk.1 hk.2).2 hcC
        have hp : (p'.userID == u && p'.courseID == c && p'.isComplete) = true := by
          simp only [Bool.and_eq_true, beq_iff_eq]
          exact ⟨⟨hk.1.symm.trans hcu, hcourse.symm.trans hcc⟩, hcomp⟩
        rw [if_pos hp]
        split <;> omega
      · rw [if_neg hc]
        exact Nat.zero_le _
    · rw [if_neg hk]

/-- Aggregation never writes the module-progress store. -/
theorem updateEnrollmentProgress_progresses (f : Faults) (s : CourseState)
    (u c : Nat) :
    (updateEnrollmentProgress f s u c).1.progresses = s.progresses := by
  simp only [updateEnrollmentProgress]
  repeat' split
  all_goals rfl

/-- Aggregation never writes the module store. -/
theorem updateEnrollmentProgress_modules (f : Faults) (s : CourseState)
    (u c : Nat) :
    (updateEnrollmentProgress f s u c).1.modules = s.modules := by
  simp only [updateEnrollmentProgress]
  repeat' split
  all_goals rfl

/-- Aggregation on a course with zero modules is a successful no-op (the
division is never reached). -/
theorem updateEnrollmentProgress_zeroModules (f : Faults) (s : CourseState)
    (u c : Nat) (h : modulesByCourse s.modules c = [])
    (hf : f.enrollGetFails = false) :
    updateEnrollmentProgress f s u c = (s, .ok) := by
  unfold updateEnrollmentProgress
  rw [hf]
  simp [h]

/-- Aggregation with an existing enrollment and a nonempty module list
returns success, leaves the module-progress and module stores alone, and
stores the freshly recomputed percentage in the enrollment. -/
theorem updateEnrollmentProgress_fresh (s : CourseState) (u c : Nat)
    (e : Enrollment)
    (henr : getByUserAndCourse s.enrollments u c = some e)
    (htot : (modulesByCourse s.modules c).length ≠ 0) :
    (updateEnrollmentProgress noFaults s u c).2 = .ok ∧
    ∃ e', getByUserAndCourse
        (updateEnrollmentProgress noFaults s u c).1.enrollments u c =
          some e' ∧
      e'.progress = progressPct (countCompletedByUserAndCourse s.progresses u c)
        (modulesByCourse s.modules c).length := by
  have hbeq : ((modulesByCourse s.modules c).length == 0) = false := by
    simpa using htot
  simp only [updateEnrollmentProgress, noFaults, Bool.false_eq_true, if_false,
    hbeq, henr]
  split
  · refine ⟨rfl, { e with
        progress := progressPct (countCompletedByUserAndCourse s.progresses u c)
          (modulesByCourse s.modules c).length,
        isFinished := true }, ?_, rfl⟩
    rw [getByUserAndCourse_save, henr]
    simp
  · refine ⟨rfl, { e with
        progress := progressPct (countCompletedByUserAndCourse s.progresses u c)
          (modulesByCourse s.modules c).length }, ?_, rfl⟩
    rw [getByUserAndCourse_save, henr]
    simp

/-- Percentage threshold: with a positive module total, the recomputed
percentage reaches 100 exactly when the completed count reaches the total. -/
theorem progressPct_ge_iff (completed total : Nat) (h : total ≠ 0) :
    100 ≤ progressPct completed total ↔ total ≤ completed := by
  unfold progressPct
  have ht : (0 : ℚ) < (total : ℚ) := by
    exact_mod_cast Nat.pos_of_ne_zero h
  rw [mul_comm]
  rw [le_mul_iff_one_le_right (by norm_num : (0 : ℚ) < 100)]
  rw [one_le_div ht]
  exact_mod_cast Iff.rfl

/-!
Claim theorems.
-/

/-- C7: the claim is right and the code is wrong.  When the student has no
enrollment for a course that has a module, `MarkModuleComplete` records the
completion, but the aggregation then dereferences the absent enrollment
(`GetByUserAndCourse` maps absence to a nil row and a nil error) and the Go
code panics at `enrollment.Progress = progress` instead of skipping the
aggregation and returning success. -/
theorem mark_without_enrollment_panics :
    MarkModuleComplete noFaults noEnrollmentState 1 "m1" 1 =
      ({ noEnrollmentState with
          progresses := [{ userID := 1, moduleID := "m1", courseID := 1,
                           isComplete := true }] },
        GoOutcome.panicked) := by
  rfl

/-- C9: for a course with zero modules the aggregation returns success and
leaves the state untouched (progress unchanged, finished never set, the
division never reached), and `MarkModuleComplete` through it changes nothing
but the module-progress store and still returns success. -/
theorem zeroModules_progress_unchanged (s : CourseState) (u : Nat)
    (m : String) (c : Nat) (h : modulesByCourse s.modules c = []) :
    updateEnrollmentProgress noFaults s u c = (s, .ok) ∧
    (MarkModuleComplete noFaults s u m c).1.enrollments = s.enrollments ∧
    (MarkModuleComplete noFaults s u m c).1.certificates = s.certificates ∧
    (MarkModuleComplete noFaults s u m c).2 = .ok := by
  have key : ∀ s' : CourseState, s'.modules = s.modules →
      updateEnrollmentProgress noFaults s' u c = (s', .ok) := by
    intro s' hs'
    exact updateEnrollmentProgress_zeroModules noFaults s' u c
      (by rw [hs']; exact h) rfl
  refine ⟨key s rfl, ?_⟩
  rcases hg : getByUserAndModule s.progresses u m with _ | p
  · have hkey := key
      { s with progresses := s.progresses ++
          [{ userID := u, moduleID := m, courseID := c,
             isComplete := true }] } rfl
    simp [MarkModuleComplete, hg, hkey]
  · by_cases hcpl : p.isComplete = true
    · simp [MarkModuleComplete, hg, hcpl]
    · have hkey := key
        { s with
          progresses := (saveModuleProgress s.progresses
            { p with isComplete := true }) } rfl
      simp [MarkModuleComplete, hg, hcpl, hkey]

/-- C9 witness: a concrete course with no modules, evaluated through the
theorem. -/
theorem zeroModules_progress_unchanged_witness :
    modulesByCourse (initState [1] []).modules 1 = [] ∧
    updateEnrollmentProgress noFaults (initState [1] []) 2 1 =
      (initState [1] [], .ok) := by
  refine ⟨rfl, ?_⟩
  exact (zeroModules_progress_unchanged (initState [1] []) 2 "m1" 1 rfl).1

/-- C5 counterexample: approving the rejected certificate of
`rejectedCertState` succeeds and moves it from the supposedly terminal
rejected status to approved, so the workflow does perform a transition out
of rejected. -/
theorem approve_moves_rejected_certificate :
    (getCertByID rejectedCertState.certificates 1).map Certificate.status =
      some "rejected" ∧
    (ApproveCertificate rejectedCertState 1 3).2 = .ok ∧
    (getCertByID (ApproveCertificate rejectedCertState 1 3).1.certificates
        1).map Certificate.status = some "approved" := by
  exact ⟨rfl, rfl, rfl⟩

/-- C5 (amended): the approval workflow overwrites the status
unconditionally.  Whenever the certificate exists and the reviewer resolves
to an instructor or admin, `ApproveCertificate` stores approved and
`RejectCertificate` stores rejected with `ApprovedBy` stamped, whatever the
prior status: pending → approved and pending → rejected occur, but so do
rejected → approved, approved → rejected and re-stamping; approved and
rejected are not enforced as terminal. -/
theorem approval_overwrites_status (s : CertState) (certID approverID : Nat)
    (cert : Certificate) (approver : User)
    (hc : getCertByID s.certificates certID = some cert)
    (ha : getUserByID s.users approverID = some approver)
    (hr : canReview approver.role = true) :
    (ApproveCertificate s certID approverID).2 = .ok ∧
    getCertByID (ApproveCertificate s certID approverID).1.certificates
        certID =
      some { cert with status := "approved",
                       approvedBy := some approverID } ∧
    (RejectCertificate s certID approverID).2 = .ok ∧
    getCertByID (RejectCertificate s certID approverID).1.certificates
        certID =
      some { cert with status := "rejected",
                       approvedBy := some approverID } := by
  simp only [ApproveCertificate, RejectCertificate, hc, ha, hr,
    Bool.not_true, Bool.false_eq_true, if_false]
  refine ⟨by trivial, ?_, by trivial, ?_⟩ <;>
  · rw [getCertByID_save, hc]
    simp

/-- C5 witness: the amended theorem applied to the concrete rejected
certificate and admin reviewer. -/
theorem approval_overwrites_status_witness :
    getCertByID rejectedCertState.certificates 1 =
      some { id := 1, userID := 2, courseID := some 1, labID := none,
             title := "Course Completion Certificate",
             url := "/certificates/auto-generated.pdf",
             status := "rejected", approvedBy := none } ∧
    getUserByID rejectedCertState.users 3 =
      some { id := 3, role := Role.admin } ∧
    canReview Role.admin = true ∧
    (ApproveCertificate rejectedCertState 1 3).2 = .ok := by
  refine ⟨rfl, rfl, rfl, ?_⟩
  exact (approval_overwrites_status rejectedCertState 1 3 _ _ rfl rfl rfl).1

/-- C1 counterexample: in `finishedWithNewModule` the enrollment of student
1 in course 1 is already finished and the certificate store is empty, yet
the aggregation call reached by marking the remaining module recomputes
progress 100 and creates a new pending course certificate — a recompute at
100 on an already-finished enrollment does create a certificate. -/
theorem aggregation_duplicates_cert_for_finished :
    (getByUserAndCourse finishedWithNewModule.enrollments 1 1).map
        Enrollment.isFinished = some true ∧
    finishedWithNewModule.certificates = [] ∧
    (MarkModuleComplete noFaults finishedWithNewModule 1 "m1" 1).2 = .ok ∧
    (MarkModuleComplete noFaults finishedWithNewModule 1 "m1"
        1).1.certificates = [courseCert [] 1 1] := by
  refine ⟨rfl, rfl, ?_, ?_⟩ <;>
  · simp [MarkModuleComplete, updateEnrollmentProgress, finishedWithNewModule,
      getByUserAndModule, getByUserAndCourse, modulesByCourse,
      countCompletedByUserAndCourse, progressPct, noFaults, List.find?,
      List.filter]

/-- C1 (amended): a pending course certificate is created by an aggregation
call exactly when the freshly recomputed progress reaches 100 (given an
existing enrollment and a nonempty module list), regardless of whether the
enrollment's finished flag was already true: a recompute at 100 on an
already-finished enrollment creates another certificate rather than none. -/
theorem aggregation_cert_iff_threshold (s : CourseState) (u c : Nat)
    (e : Enrollment)
    (henr : getByUserAndCourse s.enrollments u c = some e)
    (htot : (modulesByCourse s.modules c).length ≠ 0) :
    (updateEnrollmentProgress noFaults s u c).2 = .ok ∧
    (updateEnrollmentProgress noFaults s u c).1.certificates =
      (if 100 ≤ progressPct (countCompletedByUserAndCourse s.progresses u c)
            (modulesByCourse s.modules c).length
        then s.certificates ++ [courseCert s.certificates u c]
        else s.certificates) := by
  have hbeq : ((modulesByCourse s.modules c).length == 0) = false := by
    simpa using htot
  simp only [updateEnrollmentProgress, noFaults, Bool.false_eq_true, if_false,
    hbeq, henr]
  by_cases hp : 100 ≤ progressPct
      (countCompletedByUserAndCourse s.progresses u c)
      (modulesByCourse s.modules c).length
  · simp [hp]
  · simp [hp]

/-- C1 witness: the amended theorem applied to the concrete state in which
the enrollment is already finished. -/
theorem aggregation_cert_iff_threshold_witness :
    getByUserAndCourse finishedWithNewModule.enrollments 1 1 =
      some { userID := 1, courseID := 1, progress := 100,
             isFinished := true } ∧
    (modulesByCourse finishedWithNewModule.modules 1).length ≠ 0 ∧
    (updateEnrollmentProgress noFaults finishedWithNewModule 1 1).2 = .ok := by
  refine ⟨rfl, by decide, ?_⟩
  exact (aggregation_cert_iff_threshold finishedWithNewModule 1 1 _ rfl
    (by decide)).1

/-- C3 counterexample: in `staleProgressState` module m2 was added after
student 1 completed m1, so the stored progress 100 is stale (the recomputed
value is 50); calling `MarkModuleComplete` on the already-complete module m1
succeeds but returns early without recomputing, leaving the stale stored
progress in place — a successful call for a course with a module and an
existing enrollment after which the stored progress differs from the
recomputed quotient. -/
theorem mark_already_complete_keeps_stale_progress :
    MarkModuleComplete noFaults staleProgressState 1 "m1" 1 =
      (staleProgressState, .ok) ∧
    (getByUserAndCourse staleProgressState.enrollments 1 1).map
        Enrollment.progress = some 100 ∧
    countCompletedByUserAndCourse staleProgressState.progresses 1 1 = 1 ∧
    (modulesByCourse staleProgressState.modules 1).length = 2 ∧
    ¬(100 : ℚ) = 100 * (1 : ℚ) / (2 : ℚ) := by
  refine ⟨rfl, rfl, rfl, rfl, by norm_num⟩

/-- C3 (amended): after a `MarkModuleComplete` call that actually writes a
completion (the module was not already complete) for a course with at least
one module and an existing enrollment, the stored enrollment progress equals
100 × completed / total recomputed from the completion store at the time of
the call; a call on an already-complete module returns success without
recomputing and can leave a stale stored value. -/
theorem mark_recomputes_progress (s : CourseState) (u : Nat) (m : String)
    (c : Nat) (e : Enrollment)
    (hnot : ∀ p, getByUserAndModule s.progresses u m = some p →
      p.isComplete = false)
    (henr : getByUserAndCourse s.enrollments u c = some e)
    (htot : (modulesByCourse s.modules c).length ≠ 0) :
    (MarkModuleComplete noFaults s u m c).2 = .ok ∧
    ∃ e', getByUserAndCourse
        (MarkModuleComplete noFaults s u m c).1.enrollments u c = some e' ∧
      e'.progress =
        100 * (countCompletedByUserAndCourse
            (MarkModuleComplete noFaults s u m c).1.progresses u c : ℚ) /
          ((modulesByCourse s.modules c).length : ℚ) := by
  have main : ∀ s1 : CourseState, s1.enrollments = s.enrollments →
      s1.modules = s.modules →
      (updateEnrollmentProgress noFaults s1 u c).2 = .ok ∧
      ∃ e', getByUserAndCourse
          (updateEnrollmentProgress noFaults s1 u c).1.enrollments u c =
            some e' ∧
        e'.progress =
          100 * (countCompletedByUserAndCourse
              (updateEnrollmentProgress noFaults s1 u c).1.progresses u c : ℚ) /
            ((modulesByCourse s.modules c).length : ℚ) := by
    intro s1 hse hsm
    obtain ⟨hok, e', he', hprog⟩ :=
      updateEnrollmentProgress_fresh s1 u c e (by rw [hse]; exact henr)
        (by rw [hsm]; exact htot)
    refine ⟨hok, e', he', ?_⟩
    rw [hprog, updateEnrollmentProgress_progresses, hsm, progressPct]
    ring
  rcases hg : getByUserAndModule s.progresses u m with _ | p
  · have := main
      { s with progresses := s.progresses ++
          [{ userID := u, moduleID := m, courseID := c,
             isComplete := true }] } rfl rfl
    simpa [MarkModuleComplete, hg] using this
  · have hcpl : p.isComplete = false := hnot p hg
    have := main
      { s with
        progresses := (saveModuleProgress s.progresses
          { p with isComplete := true }) } rfl rfl
    simpa [MarkModuleComplete, hg, hcpl] using this

/-- C3 witness: the amended theorem applied to a fresh student completing
the only module of course 1. -/
theorem mark_recomputes_progress_witness :
    getByUserAndModule
        (EnrollStudent (initState [1] [("m1", 1)]) 2 1).1.progresses 2 "m1" =
      none ∧
    getByUserAndCourse
        (EnrollStudent (initState [1] [("m1", 1)]) 2 1).1.enrollments 2 1 =
      some { userID := 2, courseID := 1, progress := 0,
             isFinished := false } ∧
    (MarkModuleComplete noFaults
        (EnrollStudent (initState [1] [("m1", 1)]) 2 1).1 2 "m1" 1).2 =
      .ok := by
  refine ⟨rfl, rfl, ?_⟩
  exact (mark_recomputes_progress
    (EnrollStudent (initState [1] [("m1", 1)]) 2 1).1 2 "m1" 1
    { userID := 2, courseID := 1, progress := 0, isFinished := false }
    (fun p hp => nomatch hp) rfl (by decide)).1

/-- C4: in both revisions of `SubmitGrade`, a successful call attempts
exactly one pending lab-certificate creation if and only if the submitted
grade meets the revision's pass threshold (grade in the set A, B on the
letter scale; a non-nil grade of at least 75 on the numeric scale); a
below-threshold grade triggers no creation attempt. -/
theorem submitGrade_cert_iff_pass
    (sL : LetterRev.LabState) (iL uL lL : Nat) (gL fbL : String)
    (instrL : User) (lgL : LetterRev.LabGrade)
    (hL1 : getUserByID sL.users iL = some instrL)
    (hL2 : canReview instrL.role = true)
    (hL3 : LetterRev.getGrade sL.grades uL lL = some lgL)
    (sN : NumericRev.LabState) (iN uN lN : Nat) (gN : Option ℚ) (fbN : String)
    (instrN : User)
    (hN1 : getUserByID sN.users iN = some instrN)
    (hN2 : canReview instrN.role = true) :
    ((LetterRev.SubmitGrade noFaults sL iL uL lL gL fbL).2 = .ok ∧
     (LetterRev.SubmitGrade noFaults sL iL uL lL gL fbL).1.certificates =
       (if passLetter gL
        then sL.certificates ++ [labCert sL.certificates uL lL]
        else sL.certificates)) ∧
    ((NumericRev.SubmitGrade noFaults sN iN uN lN gN fbN).2 = .ok ∧
     (NumericRev.SubmitGrade noFaults sN iN uN lN gN fbN).1.certificates =
       (if passNumeric gN
        then sN.certificates ++ [labCert sN.certificates uN lN]
        else sN.certificates)) := by
  constructor
  · simp only [LetterRev.SubmitGrade, hL1, hL2, hL3, Bool.not_true,
      Bool.false_eq_true, if_false, noFaults]
    by_cases hp : passLetter gL = true
    · simp [hp]
    · simp [hp]
  · simp only [NumericRev.SubmitGrade, hN1, hN2, Bool.not_true,
      Bool.false_eq_true, if_false, noFaults]
    by_cases hp : passNumeric gN = true
    · simp [hp]
    · simp [hp]

/-- C4 witness: both revisions applied to a concrete instructor, student and
lab with passing grades. -/
theorem submitGrade_cert_iff_pass_witness :
    getUserByID letterLabState.users 9 =
      some { id := 9, role := Role.instructor } ∧
    canReview Role.instructor = true ∧
    LetterRev.getGrade letterLabState.grades 4 5 =
      some { userID := 4, labID := 5, grade := "", feedback := "" } ∧
    getUserByID numericLabState.users 9 =
      some { id := 9, role := Role.instructor } ∧
    (LetterRev.SubmitGrade noFaults letterLabState 9 4 5 "A" "good").2 =
      .ok ∧
    (NumericRev.SubmitGrade noFaults numericLabState 9 4 5 (some 80)
        "good").2 = .ok := by
  have h := submitGrade_cert_iff_pass letterLabState 9 4 5 "A" "good"
    { id := 9, role := Role.instructor }
    { userID := 4, labID := 5, grade := "", feedback := "" } rfl rfl rfl
    numericLabState 9 4 5 (some 80) "good"
    { id := 9, role := Role.instructor } rfl rfl
  exact ⟨rfl, rfl, rfl, rfl, h.1.1, h.2.1⟩

/-- C8: when the certificate-repository `Create` fails during triggering,
the triggering operation still succeeds and the write it already made is
kept: the aggregation with a failing create still returns ok, stores the
recomputed progress with the finished flag set, and leaves the certificate
store unchanged; the letter-scale `SubmitGrade` with a failing create still
returns ok, stores the grade and feedback, and leaves the certificate store
unchanged. -/
theorem certCreate_failure_swallowed (s : CourseState) (u c : Nat)
    (e : Enrollment)
    (henr : getByUserAndCourse s.enrollments u c = some e)
    (htot : (modulesByCourse s.modules c).length ≠ 0)
    (hpass : 100 ≤ progressPct
      (countCompletedByUserAndCourse s.progresses u c)
      (modulesByCourse s.modules c).length)
    (sL : LetterRev.LabState) (iL uL lL : Nat) (gL fbL : String)
    (instr : User) (lg : LetterRev.LabGrade)
    (h1 : getUserByID sL.users iL = some instr)
    (h2 : canReview instr.role = true)
    (h3 : LetterRev.getGrade sL.grades uL lL = some lg) :
    ((updateEnrollmentProgress ⟨false, true⟩ s u c).2 = .ok ∧
     (updateEnrollmentProgress ⟨false, true⟩ s u c).1.certificates =
       s.certificates ∧
     getByUserAndCourse
         (updateEnrollmentProgress ⟨false, true⟩ s u c).1.enrollments u c =
       some { e with
         progress := (progressPct
           (countCompletedByUserAndCourse s.progresses u c)
           (modulesByCourse s.modules c).length)
         isFinished := true }) ∧
    ((LetterRev.SubmitGrade ⟨false, true⟩ sL iL uL lL gL fbL).2 = .ok ∧
     (LetterRev.SubmitGrade ⟨false, true⟩ sL iL uL lL gL
         fbL).1.certificates = sL.certificates ∧
     LetterRev.getGrade
         (LetterRev.SubmitGrade ⟨false, true⟩ sL iL uL lL gL fbL).1.grades
         uL lL =
       some { lg with grade := gL, feedback := fbL }) := by
  have hbeq : ((modulesByCourse s.modules c).length == 0) = false := by
    simpa using htot
  constructor
  · simp only [updateEnrollmentProgress, Bool.false_eq_true, if_false,
      hbeq, henr, if_pos hpass, if_true]
    refine ⟨by trivial, by trivial, ?_⟩
    rw [getByUserAndCourse_save, henr]
    simp
  · simp only [LetterRev.SubmitGrade, h1, h2, h3, Bool.not_true,
      Bool.false_eq_true, if_false, if_true]
    refine ⟨by trivial, ?_, ?_⟩
    · by_cases hp : passLetter gL = true
      · simp [hp]
      · simp [hp]
    · rw [LetterRev.getGrade_save, h3]
      simp

/-- C8 witness: the theorem applied to the finished-enrollment state and a
concrete passing letter grade, both with a failing certificate create. -/
theorem certCreate_failure_swallowed_witness :
    getByUserAndCourse oneModuleDone.enrollments 1 1 =
      some { userID := 1, courseID := 1, progress := 100,
             isFinished := true } ∧
    (modulesByCourse oneModuleDone.modules 1).length ≠ 0 ∧
    (updateEnrollmentProgress ⟨false, true⟩ oneModuleDone 1 1).2 = .ok ∧
    (LetterRev.SubmitGrade ⟨false, true⟩ letterLabState 9 4 5 "A"
        "good").1.certificates = letterLabState.certificates := by
  have hpass : 100 ≤ progressPct
      (countCompletedByUserAndCourse oneModuleDone.progresses 1 1)
      (modulesByCourse oneModuleDone.modules 1).length := by
    rw [show countCompletedByUserAndCourse oneModuleDone.progresses 1 1 = 1
        from rfl,
      show (modulesByCourse oneModuleDone.modules 1).length = 1 from rfl,
      progressPct]
    norm_num
  have h := certCreate_failure_swallowed oneModuleDone 1 1
    { userID := 1, courseID := 1, progress := 100, isFinished := true }
    rfl (by decide) hpass letterLabState 9 4 5 "A" "good"
    { id := 9, role := Role.instructor }
    { userID := 4, labID := 5, grade := "", feedback := "" } rfl rfl rfl
  exact ⟨rfl, by decide, h.1.1, h.2.2.1⟩

/-- C6: `MarkModuleComplete` is idempotent: after a successful call, an
immediate second call for the same (student, module, course) — under any
injected faults — returns success and leaves every store exactly as the
first call left it, performing no write and no re-aggregation (the second
call takes the already-complete early return). -/
theorem markModuleComplete_idempotent (f fSecond : Faults)
    (s s₁ : CourseState) (u : Nat) (m : String) (c : Nat)
    (h : MarkModuleComplete f s u m c = (s₁, .ok)) :
    MarkModuleComplete fSecond s₁ u m c = (s₁, .ok) := by
  have hrec : ∃ p : ModuleProgress,
      getByUserAndModule s₁.progresses u m = some p ∧
        p.isComplete = true := by
    rcases hg : getByUserAndModule s.progresses u m with _ | p
    · simp only [MarkModuleComplete, hg] at h
      have h1 := congrArg (fun x => x.1.progresses) h
      simp only [updateEnrollmentProgress_progresses] at h1
      refine ⟨{ userID := u, moduleID := m, courseID := c,
                isComplete := true }, ?_, rfl⟩
      rw [← h1]
      unfold getByUserAndModule at hg ⊢
      rw [List.find?_append, hg]
      simp
    · by_cases hcpl : p.isComplete = true
      · simp only [MarkModuleComplete, hg, hcpl, if_true] at h
        have hs : s = s₁ := congrArg Prod.fst h
        exact ⟨p, hs ▸ hg, hcpl⟩
      · simp only [MarkModuleComplete, hg, hcpl, if_false,
          Bool.false_eq_true] at h
        have h1 := congrArg (fun x => x.1.progresses) h
        simp only [updateEnrollmentProgress_progresses] at h1
        refine ⟨{ p with isComplete := true }, ?_, rfl⟩
        rw [← h1]
        rw [getByUserAndModule_save, hg]
        have hkey := List.find?_some hg
        simp only [Bool.and_eq_true, beq_iff_eq] at hkey
        simp
  obtain ⟨p, hp, hcomp⟩ := hrec
  simp [MarkModuleComplete, hp, hcomp]

/-- C6 witness: a concrete successful completion followed by a second call,
which is a no-op returning success. -/
theorem markModuleComplete_idempotent_witness :
    MarkModuleComplete noFaults oneModuleState 1 "m1" 1 =
      (oneModuleDone, .ok) ∧
    MarkModuleComplete noFaults oneModuleDone 1 "m1" 1 =
      (oneModuleDone, .ok) := by
  have h1 : MarkModuleComplete noFaults oneModuleState 1 "m1" 1 =
      (oneModuleDone, .ok) := by
    simp [MarkModuleComplete, updateEnrollmentProgress, oneModuleState,
      oneModuleDone, getByUserAndModule, getByUserAndCourse, modulesByCourse,
      countCompletedByUserAndCourse, progressPct, saveEnrollment, noFaults,
      courseCert, freshCertID, List.find?, List.filter]
  exact ⟨h1,
    markModuleComplete_idempotent noFaults noFaults oneModuleState
      oneModuleDone 1 "m1" 1 h1⟩

/-- Appending a module-progress row whose key is absent keeps the store
functional in its key. -/
theorem progKeyFun_append (l : List ModuleProgress) (newp : ModuleProgress)
    (hfind : l.find? (fun p =>
      p.userID == newp.userID && p.moduleID == newp.moduleID) = none)
    (hl : ∀ p ∈ l, ∀ q ∈ l, p.userID = q.userID → p.moduleID = q.moduleID →
      p = q) :
    ∀ p ∈ l ++ [newp], ∀ q ∈ l ++ [newp], p.userID = q.userID →
      p.moduleID = q.moduleID → p = q := by
  have habs : ∀ p ∈ l, ¬(p.userID = newp.userID ∧ p.moduleID = newp.moduleID) := by
    intro p hp hcontra
    have := List.find?_eq_none.mp hfind p hp
    simp only [Bool.and_eq_true, beq_iff_eq] at this
    exact this ⟨hcontra.1, hcontra.2⟩
  intro p hp q hq h1 h2
  rw [List.mem_append, List.mem_singleton] at hp hq
  rcases hp with hp | hp <;> rcases hq with hq | hq
  · exact hl p hp q hq h1 h2
  · exact absurd ⟨hq ▸ h1, hq ▸ h2⟩ (habs p hp)
  · exact absurd ⟨hp ▸ h1.symm, hp ▸ h2.symm⟩ (habs q hq)
  · rw [hp, hq]

/-- Saving a module-progress row keeps the store functional in its key. -/
theorem progKeyFun_save (l : List ModuleProgress) (p' : ModuleProgress)
    (hl : ∀ p ∈ l, ∀ q ∈ l, p.userID = q.userID → p.moduleID = q.moduleID →
      p = q) :
    ∀ p ∈ saveModuleProgress l p', ∀ q ∈ saveModuleProgress l p',
      p.userID = q.userID → p.moduleID = q.moduleID → p = q := by
  intro a ha b hb h1 h2
  rw [saveModuleProgress, List.mem_map] at ha hb
  obtain ⟨x, hx, hax⟩ := ha
  obtain ⟨y, hy, hby⟩ := hb
  by_cases hkx : (x.userID == p'.userID && x.moduleID == p'.moduleID) = true <;>
    by_cases hky : (y.userID == p'.userID && y.moduleID == p'.moduleID) = true
  · rw [if_pos hkx] at hax
    rw [if_pos hky] at hby
    rw [← hax, ← hby]
  · rw [if_pos hkx] at hax
    rw [if_neg hky] at hby
    exfalso
    apply hky
    simp only [Bool.and_eq_true, beq_iff_eq]
    constructor
    · rw [hby, ← h1, ← hax]
    · rw [hby, ← h2, ← hax]
  · rw [if_neg hkx] at hax
    rw [if_pos hky] at hby
    exfalso
    apply hkx
    simp only [Bool.and_eq_true, beq_iff_eq]
    constructor
    · rw [hax, h1, ← hby]
    · rw [hax, h2, ← hby]
  · rw [if_neg hkx] at hax
    rw [if_neg hky] at hby
    rw [← hax, ← hby] at h1 h2 ⊢
    exact hl x hx y hy h1 h2

/-- Looking up an enrollment pins its membership and its key fields. -/
theorem getByUserAndCourse_mem (l : List Enrollment) (u c : Nat)
    (e : Enrollment) (h : getByUserAndCourse l u c = some e) :
    e ∈ l ∧ e.userID = u ∧ e.courseID = c := by
  have hpred := List.find?_some h
  simp only [Bool.and_eq_true, beq_iff_eq] at hpred
  exact ⟨List.mem_of_find?_eq_some h, hpred.1, hpred.2⟩

/-- Writing the freshly recomputed percentage into an enrollment — with the
finished flag the aggregation computes (old flag, or true at 100) — keeps
the inductive invariant, whatever happens to the certificate store. -/
theorem courseInv_save (s : CourseState) (u c : Nat) (e : Enrollment)
    (certs : List Certificate) (b : Bool)
    (henr : getByUserAndCourse s.enrollments u c = some e)
    (htot : (modulesByCourse s.modules c).length ≠ 0)
    (hb : b = (e.isFinished ||
      decide (100 ≤ progressPct
        (countCompletedByUserAndCourse s.progresses u c)
        (modulesByCourse s.modules c).length)))
    (hinv : CourseInv s) :
    CourseInv { s with
      certificates := certs
      enrollments := (saveEnrollment s.enrollments
        { e with
          progress := (progressPct
            (countCompletedByUserAndCourse s.progresses u c)
            (modulesByCourse s.modules c).length)
          isFinished := b }) } := by
  obtain ⟨hkey, hdone, hi2⟩ := hinv
  obtain ⟨hmem, heu, hec⟩ := getByUserAndCourse_mem _ _ _ _ henr
  have hfinP : e.isFinished = true →
      100 ≤ progressPct (countCompletedByUserAndCourse s.progresses u c)
        (modulesByCourse s.modules c).length := by
    intro hf
    rw [progressPct_ge_iff _ _ htot]
    have := hdone e hmem hf
    rw [heu, hec] at this
    exact this
  have hbP : b = true ↔
      100 ≤ progressPct (countCompletedByUserAndCourse s.progresses u c)
        (modulesByCourse s.modules c).length := by
    rw [hb, Bool.or_eq_true, decide_eq_true_eq]
    constructor
    · rintro (hf | hP)
      · exact hfinP hf
      · exact hP
    · intro hP
      exact Or.inr hP
  refine ⟨hkey, ?_, ?_⟩
  · intro x hx hfin
    dsimp only at hx ⊢
    rw [saveEnrollment, List.mem_map] at hx
    obtain ⟨y, hy, hxy⟩ := hx
    by_cases hky : (y.userID == e.userID && y.courseID == e.courseID) = true
    · rw [if_pos hky] at hxy
      subst hxy
      dsimp only at hfin ⊢
      rw [heu, hec]
      rw [← progressPct_ge_iff _ _ htot]
      exact hbP.mp hfin
    · rw [if_neg hky] at hxy
      subst hxy
      exact hdone y hy hfin
  · intro x hx
    dsimp only at hx
    rw [saveEnrollment, List.mem_map] at hx
    obtain ⟨y, hy, hxy⟩ := hx
    by_cases hky : (y.userID == e.userID && y.courseID == e.courseID) = true
    · rw [if_pos hky] at hxy
      subst hxy
      dsimp only
      exact hbP
    · rw [if_neg hky] at hxy
      subst hxy
      exact hi2 y hy

/-- The aggregation preserves the inductive invariant, under any injected
faults. -/
theorem courseInv_aggregation (f : Faults) (s : CourseState) (u c : Nat)
    (hinv : CourseInv s) :
    CourseInv (updateEnrollmentProgress f s u c).1 := by
  by_cases hf : f.enrollGetFails = true
  · simp only [updateEnrollmentProgress, hf, if_true]
    exact hinv
  rw [Bool.not_eq_true] at hf
  by_cases htot0 : ((modulesByCourse s.modules c).length == 0) = true
  · simp only [updateEnrollmentProgress, hf, Bool.false_eq_true, if_false,
      htot0, if_true]
    exact hinv
  rcases henr : getByUserAndCourse s.enrollments u c with _ | e
  · simp only [updateEnrollmentProgress, hf, Bool.false_eq_true, if_false,
      htot0, henr]
    exact hinv
  · have htot : (modulesByCourse s.modules c).length ≠ 0 := by
      simpa using htot0
    simp only [updateEnrollmentProgress, hf, Bool.false_eq_true, if_false,
      htot0, henr]
    by_cases hp : 100 ≤ progressPct
        (countCompletedByUserAndCourse s.progresses u c)
        (modulesByCourse s.modules c).length
    · simp only [if_pos hp]
      exact courseInv_save s u c e _ true henr htot (by simp [hp]) hinv
    · simp only [if_neg hp]
      exact courseInv_save s u c e _ e.isFinished henr htot (by simp [hp])
        hinv

/-- `EnrollStudent` preserves the inductive invariant. -/
theorem courseInv_enroll (s : CourseState) (u c : Nat) (hinv : CourseInv s) :
    CourseInv (EnrollStudent s u c).1 := by
  unfold EnrollStudent
  rcases hx : getByUserAndCourse s.enrollments u c with _ | x
  · by_cases hc : s.courses.contains c = true
    · simp only [hx, hc, if_true]
      obtain ⟨hkey, hdone, hi2⟩ := hinv
      refine ⟨hkey, ?_, ?_⟩
      · intro y hy hfin
        dsimp only at hy hfin ⊢
        rw [List.mem_append, List.mem_singleton] at hy
        rcases hy with hy | hy
        · exact hdone y hy hfin
        · subst hy
          simp at hfin
      · intro y hy
        dsimp only at hy
        rw [List.mem_append, List.mem_singleton] at hy
        rcases hy with hy | hy
        · exact hi2 y hy
        · subst hy
          constructor
          · intro hfin
            simp at hfin
          · intro hprog
            exfalso
            dsimp only at hprog
            norm_num at hprog
    · simp only [hx, hc, Bool.false_eq_true, if_false]
      exact hinv
  · simp only [hx]
    exact hinv

/-- `MarkModuleComplete` preserves the inductive invariant, under any
injected faults. -/
theorem courseInv_mark (f : Faults) (s : CourseState) (u : Nat) (m : String)
    (c : Nat) (hinv : CourseInv s) :
    CourseInv (MarkModuleComplete f s u m c).1 := by
  obtain ⟨hkey, hdone, hi2⟩ := hinv
  rcases hg : getByUserAndModule s.progresses u m with _ | p
  · simp only [MarkModuleComplete, hg]
    apply courseInv_aggregation
    refine ⟨?_, ?_, ?_⟩
    · exact progKeyFun_append s.progresses _ hg hkey
    · intro x hx hfin
      dsimp only at hx ⊢
      refine le_trans (hdone x hx hfin) ?_
      rw [countCompleted_append]
      omega
    · exact hi2
  · by_cases hcpl : p.isComplete = true
    · simp only [MarkModuleComplete, hg, hcpl, if_true]
      exact ⟨hkey, hdone, hi2⟩
    · simp only [MarkModuleComplete, hg, hcpl, Bool.false_eq_true, if_false]
      apply courseInv_aggregation
      have hpmem : p ∈ s.progresses := List.mem_of_find?_eq_some hg
      refine ⟨?_, ?_, ?_⟩
      · exact progKeyFun_save s.progresses _ hkey
      · intro x hx hfin
        dsimp only at hx ⊢
        refine le_trans (hdone x hx hfin) ?_
        apply countCompleted_save_mono
        intro y hy h1 h2
        have hyp : y = p := hkey y hy p hpmem h1 h2
        exact ⟨by rw [hyp], fun _ => rfl⟩
      · exact hi2

/-- The initial state satisfies the inductive invariant. -/
theorem courseInv_init (courses : List Nat) (modules : List (String × Nat)) :
    CourseInv (initState courses modules) := by
  refine ⟨?_, ?_, ?_⟩ <;> intro x hx <;> cases hx

/-- Every state reachable by the course usecase operations satisfies the
inductive invariant. -/
theorem courseInv_reachable (s : CourseState) (h : ReachableC s) :
    CourseInv s := by
  induction h with
  | init courses modules => exact courseInv_init courses modules
  | enroll u c _ ih => exact courseInv_enroll _ u c ih
  | mark f u m c _ ih => exact courseInv_mark f _ u m c ih

/-- C2: in every state reachable by the course-usecase operations
(`EnrollStudent` and `MarkModuleComplete` with its aggregation, under any
injected repository faults), every stored enrollment satisfies invariant
I2: its finished flag is true exactly when its stored progress is at least
100. -/
theorem reachable_finished_iff_progress (s : CourseState)
    (h : ReachableC s) :
    ∀ e ∈ s.enrollments, e.isFinished = true ↔ 100 ≤ e.progress :=
  (courseInv_reachable s h).2.2

/-- C2 witness: the invariant evaluated on the enrollment created by a
concrete reachable run. -/
theorem reachable_finished_iff_progress_witness :
    (({ userID := 1, courseID := 1, progress := 0,
        isFinished := false } : Enrollment).isFinished = true ↔
      100 ≤ ({ userID := 1, courseID := 1, progress := 0,
               isFinished := false } : Enrollment).progress) := by
  have hreach : ReachableC (EnrollStudent (initState [1] [("m1", 1)]) 1 1).1 :=
    ReachableC.enroll 1 1 (ReachableC.init [1] [("m1", 1)])
  exact reachable_finished_iff_progress _ hreach _
    (List.mem_singleton.mpr rfl)

/-- Monotonicity of the stored finished flag under the aggregation: the
aggregation only ever assigns true (the below-100 branch keeps the old
flag), so a true flag survives, under any injected faults. -/
theorem finishedFlag_aggregation_mono (f : Faults) (s : CourseState)
    (u0 c0 u c : Nat) (h : finishedFlag s u c = true) :
    finishedFlag (updateEnrollmentProgress f s u0 c0).1 u c = true := by
  by_cases hf : f.enrollGetFails = true
  · simp only [updateEnrollmentProgress, hf, if_true]
    exact h
  rw [Bool.not_eq_true] at hf
  by_cases htot0 : ((modulesByCourse s.modules c0).length == 0) = true
  · simp only [updateEnrollmentProgress, hf, Bool.false_eq_true, if_false,
      htot0, if_true]
    exact h
  rcases henr : getByUserAndCourse s.enrollments u0 c0 with _ | e
  · simp only [updateEnrollmentProgress, hf, Bool.false_eq_true, if_false,
      htot0, henr]
    exact h
  obtain ⟨_, heu, hec⟩ := getByUserAndCourse_mem _ _ _ _ henr
  simp only [updateEnrollmentProgress, hf, Bool.false_eq_true, if_false,
    htot0, henr]
  have key : ∀ (b : Bool) (certs : List Certificate),
      (e.isFinished = true → b = true) →
      finishedFlag { s with
        certificates := certs
        enrollments := (saveEnrollment s.enrollments
          { e with
            progress := (progressPct
              (countCompletedByUserAndCourse s.progresses u0 c0)
              (modulesByCourse s.modules c0).length)
            isFinished := b }) } u c = true := by
    intro b certs hbmono
    unfold finishedFlag at h ⊢
    dsimp only
    rw [getByUserAndCourse_save]
    rcases hx : getByUserAndCourse s.enrollments u c with _ | x
    · rw [hx] at h
      exact absurd h (by simp)
    · rw [hx] at h
      simp only [hx, Option.map_some']
      by_cases hkx : (x.userID == e.userID && x.courseID == e.courseID) = true
      · rw [if_pos hkx]
        simp only [Bool.and_eq_true, beq_iff_eq] at hkx
        obtain ⟨hmem2, hxu, hxc⟩ := getByUserAndCourse_mem _ _ _ _ hx
        have hu : u = u0 := by rw [← hxu, hkx.1, heu]
        have hc : c = c0 := by rw [← hxc, hkx.2, hec]
        subst hu
        subst hc
        have hx2 : x = e := by
          rw [henr] at hx
          exact (Option.some_injective _ hx).symm
        exact hbmono (hx2 ▸ h)
      · rw [if_neg hkx]
        exact h
  by_cases hp : 100 ≤ progressPct
      (countCompletedByUserAndCourse s.progresses u0 c0)
      (modulesByCourse s.modules c0).length
  · simp only [if_pos hp]
    exact key true _ (fun _ => rfl)
  · simp only [if_neg hp]
    exact key e.isFinished _ (fun hh => hh)

/-- Monotonicity of the stored finished flag under one operation. -/
theorem finishedFlag_step_mono (s : CourseState) (op : Op) (u c : Nat)
    (h : finishedFlag s u c = true) :
    finishedFlag (applyOp s op) u c = true := by
  cases op with
  | enroll u0 c0 =>
    dsimp only [applyOp]
    unfold EnrollStudent
    rcases hx : getByUserAndCourse s.enrollments u0 c0 with _ | x
    · by_cases hc : s.courses.contains c0 = true
      · simp only [hx, hc, if_true]
        unfold finishedFlag at h ⊢
        dsimp only
        unfold getByUserAndCourse at h ⊢
        rw [List.find?_append]
        rcases hy : List.find?
            (fun e => e.userID == u && e.courseID == c) s.enrollments
            with _ | y
        · rw [hy] at h
          exact absurd h (by simp)
        · rw [hy] at h
          rw [hy, Option.or_some]
          exact h
      · simp only [hx, hc, Bool.false_eq_true, if_false]
        exact h
    · simp only [hx]
      exact h
  | mark f u0 m c0 =>
    dsimp only [applyOp]
    rcases hg : getByUserAndModule s.progresses u0 m with _ | p
    · simp only [MarkModuleComplete, hg]
      exact finishedFlag_aggregation_mono f _ u0 c0 u c h
    · by_cases hcpl : p.isComplete = true
      · simp only [MarkModuleComplete, hg, hcpl, if_true]
        exact h
      · simp only [MarkModuleComplete, hg, hcpl, Bool.false_eq_true,
          if_false]
        exact finishedFlag_aggregation_mono f _ u0 c0 u c h
  | addModule m c0 =>
    dsimp only [applyOp]
    unfold AddModule
    by_cases hc : s.courses.contains c0 = true
    · simp only [hc, if_true]
      exact h
    · simp only [hc, Bool.false_eq_true, if_false]
      exact h
  | deleteModule m =>
    exact h

/-- C10: the finished flag is monotone over every sequence of course-usecase
operations: once an enrollment's stored finished flag is true, no later
`EnrollStudent`, `MarkModuleComplete` (whose aggregation only ever assigns
true, even when the freshly recomputed progress is below 100), `AddModule`
or `DeleteModule` call ever resets it to false. -/
theorem finishedFlag_monotone (s : CourseState) (ops : List Op) (u c : Nat)
    (h : finishedFlag s u c = true) :
    finishedFlag (runOps s ops) u c = true := by
  induction ops generalizing s with
  | nil => exact h
  | cons op rest ih => exact ih _ (finishedFlag_step_mono s op u c h)

/-- C10 witness: a finished enrollment stays finished across a run that adds
two modules and recomputes a progress below 100. -/
theorem finishedFlag_monotone_witness :
    finishedFlag oneModuleDone 1 1 = true ∧
    finishedFlag (runOps oneModuleDone
      [Op.addModule "m2" 1, Op.addModule "m3" 1,
       Op.mark noFaults 1 "m2" 1]) 1 1 = true := by
  refine ⟨rfl, ?_⟩
  exact finishedFlag_monotone oneModuleDone _ 1 1 rfl

end Onlearn
